import Mathlib

/-!
A shallow embedding of `src/weather_tracker.py` (weather-track).

The store is a list of `WeatherRecord`s.  External effects are injected
through explicit parameters: whether a Supabase query raises, what the
weather API returns for a date, the outcome of each period's insert, and
the iteration order a Python `set` presents its elements in.  The run of
`main`'s backfill loop is modelled as a recursion over the remaining
dates, producing the final store, the per-date boolean results, and a
trace of the externally visible events (existence checks, fetches,
insert attempts).
-/

namespace WeatherTrack

/-- One hourly observation from the provider payload: `hour_data` in
`analyze_weather_periods`, with the fields read by the aggregator. -/
structure HourData where
  hourOfDay : Nat
  temp_c : ℚ
  feelslike_c : ℚ
  humidity : ℚ
  wind_kph : ℚ
  condition_text : String
  deriving DecidableEq

/-- The raw daily payload returned by `get_historical_weather`.
`hasForecastShape` models the presence of the `forecast` and
`forecastday` keys; `hours` models `forecastday[0].hour`. -/
structure Payload where
  hasForecastShape : Bool
  hours : List HourData
  deriving DecidableEq

/-- The `periods` dictionary built by `analyze_weather_periods`:
the three `data` lists, in insertion order morning, afternoon, evening. -/
structure Periods where
  morning : List HourData
  afternoon : List HourData
  evening : List HourData
  deriving DecidableEq

/-- One row of the `weather_data` table, as built in `store_weather_data`. -/
structure WeatherRecord where
  date : Int
  location : String
  period : String
  temperature : ℚ
  humidity : ℚ
  wind_speed : ℚ
  weather_condition : String
  user_id : String
  deriving DecidableEq

/-- One entry of the `results` dictionary of `calculate_period_averages`. -/
structure PeriodSummary where
  avg_temp : ℚ
  avg_feels_like : ℚ
  avg_humidity : ℚ
  avg_wind_speed : ℚ
  weather_condition : String
  deriving DecidableEq

/-- Externally visible events of a run: an existence query against the
store, a call to the weather API for a date, and an attempted row insert. -/
inductive Event where
  | existsCheck (date : Int)
  | fetchCall (date : Int)
  | insertAttempt (rec : WeatherRecord)
  deriving DecidableEq

/-- The date an event is about. -/
def Event.date : Event → Int
  | Event.existsCheck d => d
  | Event.fetchCall d => d
  | Event.insertAttempt w => w.date

/-- How one `insert(...).execute()` call ends: success, a returned
result object carrying an error, or a raised exception. -/
inductive InsertOutcome where
  | ok
  | errResult
  | raised
  deriving DecidableEq

/-- `WeatherTracker.check_existing_data`: select rows with the given
date and user and test `len(result.data) > 0`; a raised query is caught
and the function returns `False`. -/
def check_existing_data (store : List WeatherRecord) (uid : String) (date : Int)
    (queryRaises : Bool) : Bool :=
  if queryRaises then false
  else decide (0 < (store.filter (fun r => r.date == date && r.user_id == uid)).length)

/-- `WeatherTracker.analyze_weather_periods`: `none` models a falsy
payload or one without the forecast/forecastday keys; otherwise each
hour of `forecastday[0].hour` is appended to the period whose hour range
contains its hour-of-day (morning `range(6,12)`, afternoon `range(12,18)`,
evening `range(18,24)`). -/
def analyze_weather_periods : Option Payload → Option Periods
  | none => none
  | some w =>
    if !w.hasForecastShape then none
    else
      some { morning := w.hours.filter (fun hd => decide (6 ≤ hd.hourOfDay ∧ hd.hourOfDay < 12))
             afternoon := w.hours.filter (fun hd => decide (12 ≤ hd.hourOfDay ∧ hd.hourOfDay < 18))
             evening := w.hours.filter (fun hd => decide (18 ≤ hd.hourOfDay ∧ hd.hourOfDay < 24)) }

/-- Python's `max(iterable, key=key)`: fold keeping the current best,
replacing it only on a strictly greater key, so the earliest maximal
element of the iteration order wins; `none` on an empty iterable
(Python raises `ValueError` there). -/
def pyMax (key : String → Nat) : List String → Option String
  | [] => none
  | x :: xs => some (xs.foldl (fun b a => if key b < key a then a else b) x)

/-- `max(set(weather_conditions), key=weather_conditions.count)` from
`calculate_period_averages`, with `order` the iteration order of the
Python set (a hash-dependent enumeration of the distinct elements). -/
def most_common (ws : List String) (order : List String) : String :=
  (pyMax (fun c => ws.count c) order).getD ""

/-- The body of `calculate_period_averages` for one non-empty period:
arithmetic means of the numeric fields and the most common condition.
`σ` supplies the Python set iteration order for a list of labels. -/
def summarize (σ : List String → List String) (hs : List HourData) : PeriodSummary :=
  { avg_temp := (hs.map (·.temp_c)).sum / (hs.length : ℚ)
    avg_feels_like := (hs.map (·.feelslike_c)).sum / (hs.length : ℚ)
    avg_humidity := (hs.map (·.humidity)).sum / (hs.length : ℚ)
    avg_wind_speed := (hs.map (·.wind_kph)).sum / (hs.length : ℚ)
    weather_condition :=
      most_common (hs.map (·.condition_text)) (σ (hs.map (·.condition_text))) }

/-- The `periods.items()` iteration order of the dictionary built by
`analyze_weather_periods`. -/
def periodsList (p : Periods) : List (String × List HourData) :=
  [("morning", p.morning), ("afternoon", p.afternoon), ("evening", p.evening)]

/-- `WeatherTracker.calculate_period_averages`: skip a period whose
`data` list is empty (`continue`), otherwise record its summary. -/
def calculate_period_averages (σ : List String → List String) (p : Periods) :
    List (String × PeriodSummary) :=
  (periodsList p).filterMap
    (fun pd => if pd.2.isEmpty then none else some (pd.1, summarize σ pd.2))

/-- Python's `round` to an integer: round-half-to-even. -/
def bankersRound (q : ℚ) : Int :=
  let f := ⌊q⌋
  let r := q - (f : ℚ)
  if r < 1/2 then f
  else if 1/2 < r then f + 1
  else if f % 2 = 0 then f else f + 1

/-- Python's `round(x, 1)`. -/
def round1 (q : ℚ) : ℚ := (bankersRound (q * 10) : ℚ) / 10

/-- The `weather_record` dictionary built in `store_weather_data`. -/
def mkRecord (uid city country : String) (date : Int) (period : String)
    (d : PeriodSummary) : WeatherRecord :=
  { date := date
    location := city ++ ", " ++ country
    period := period
    temperature := round1 d.avg_temp
    humidity := round1 d.avg_humidity
    wind_speed := round1 d.avg_wind_speed
    weather_condition := d.weather_condition
    user_id := uid }

/-- The `for period, data in period_averages.items()` loop of
`store_weather_data`: each iteration attempts one insert; an insert whose
result object carries an error is only logged; a raised insert escapes to
the surrounding `except`, ending the loop so later periods are never
reached.  Returns the successfully inserted rows and the attempt trace. -/
def insertLoop (uid city country : String) (date : Int)
    (outcome : String → InsertOutcome) :
    List (String × PeriodSummary) → List WeatherRecord × List Event
  | [] => ([], [])
  | (p, d) :: rest =>
    let w := mkRecord uid city country date p d
    match outcome p with
    | InsertOutcome.raised => ([], [Event.insertAttempt w])
    | InsertOutcome.errResult =>
      let r := insertLoop uid city country date outcome rest
      (r.1, Event.insertAttempt w :: r.2)
    | InsertOutcome.ok =>
      let r := insertLoop uid city country date outcome rest
      (w :: r.1, Event.insertAttempt w :: r.2)

/-- `WeatherTracker.store_weather_data`: re-check existence and return
early when rows already exist, otherwise run the per-period insert loop.
All exceptions are caught internally, so no status is reported back.
Returns the new store and the event trace. -/
def store_weather_data (uid city country : String) (store : List WeatherRecord)
    (checkRaises : Bool) (outcome : String → InsertOutcome) (date : Int)
    (pa : List (String × PeriodSummary)) : List WeatherRecord × List Event :=
  if check_existing_data store uid date checkRaises then
    (store, [Event.existsCheck date])
  else
    let r := insertLoop uid city country date outcome pa
    (store ++ r.1, Event.existsCheck date :: r.2)

/-- The injected environment for processing one date: whether the two
existence queries raise (the one in `process_date` and the one in
`store_weather_data`), what the weather API returns, each period's
insert outcome, and the Python set iteration order oracle. -/
structure DateEnv where
  checkRaises1 : Bool
  checkRaises2 : Bool
  fetchResult : Option Payload
  outcome : String → InsertOutcome
  setOrder : List String → List String

/-- Result of `process_date`: its boolean return value, the store after
it, and its event trace. -/
structure DateOut where
  ok : Bool
  store : List WeatherRecord
  trace : List Event
  deriving DecidableEq

/-- `WeatherTracker.process_date`: skip (returning `True`) when data
already exists; return `False` when the fetch yields nothing or the
payload lacks the forecast shape; otherwise aggregate, store, and
return `True` regardless of how the inserts went. -/
def process_date (uid city country : String) (env : DateEnv)
    (store : List WeatherRecord) (date : Int) : DateOut :=
  if check_existing_data store uid date env.checkRaises1 then
    { ok := true, store := store, trace := [Event.existsCheck date] }
  else
    match env.fetchResult with
    | none => { ok := false, store := store
                trace := [Event.existsCheck date, Event.fetchCall date] }
    | some w =>
      match analyze_weather_periods (some w) with
      | none => { ok := false, store := store
                  trace := [Event.existsCheck date, Event.fetchCall date] }
      | some periods =>
        let pa := calculate_period_averages env.setOrder periods
        let so := store_weather_data uid city country store env.checkRaises2
          env.outcome date pa
        { ok := true, store := so.1
          trace := Event.existsCheck date :: Event.fetchCall date :: so.2 }

/-- Maximum of a list of dates, as the `order('date', desc).limit(1)`
query of `get_last_stored_date` returns it: `none` on no rows. -/
def lastDate : List Int → Option Int :=
  List.foldl (fun acc dt =>
    match acc with
    | none => some dt
    | some m => some (max m dt)) none

/-- `WeatherTracker.get_last_stored_date`: the greatest stored date for
the user, or `none` when there are no rows or the query raises (the
exception is caught and `None` returned). -/
def get_last_stored_date (store : List WeatherRecord) (uid : String)
    (queryRaises : Bool) : Option Int :=
  if queryRaises then none
  else lastDate ((store.filter (fun r => r.user_id == uid)).map (·.date))

/-- Result of a backfill run: final store, the `(date, success)` pairs
in processing order, and the concatenated event trace. -/
structure RunOut where
  store : List WeatherRecord
  results : List (Int × Bool)
  trace : List Event

/-- The `while current_date <= yesterday` loop of `main`, with explicit
fuel (the loop runs at most `fuel` more iterations; `mainLoop` supplies
enough fuel for the whole range, so the fuel never runs out before the
guard turns false).  On each iteration the date is processed and the
loop advances by one day whether or not `process_date` succeeded. -/
def mainLoopF (uid city country : String) (env : Int → DateEnv) (yesterday : Int) :
    Nat → Int → List WeatherRecord → RunOut
  | 0, _, store => { store := store, results := [], trace := [] }
  | Nat.succ n, current, store =>
    if current ≤ yesterday then
      let dOut := process_date uid city country (env current) store current
      let rest := mainLoopF uid city country env yesterday n (current + 1) dOut.store
      { store := rest.store
        results := (current, dOut.ok) :: rest.results
        trace := dOut.trace ++ rest.trace }
    else { store := store, results := [], trace := [] }

/-- The backfill loop of `main`, from `start` to `yesterday` inclusive. -/
def mainLoop (uid city country : String) (env : Int → DateEnv) (yesterday start : Int)
    (store : List WeatherRecord) : RunOut :=
  mainLoopF uid city country env yesterday (yesterday + 1 - start).toNat start store

/-- `main`: read the cursor once, start at the day after the last stored
date (or at yesterday when there is none), and run the loop. -/
def mainRun (uid city country : String) (qRaises : Bool) (env : Int → DateEnv)
    (yesterday : Int) (store : List WeatherRecord) : RunOut :=
  let start :=
    match get_last_stored_date store uid qRaises with
    | none => yesterday
    | some d => d + 1
  mainLoop uid city country env yesterday start store

/-- The list of dates `start, start+1, ..., yesterday` (empty when
`start > yesterday`). -/
def dateRange (start yesterday : Int) : List Int :=
  (List.range (yesterday + 1 - start).toNat).map (fun i : Nat => start + (i : Int))

/-- Spec-side definition (for comparison with `most_common`): the first
element of `l` whose key is greatest; applied with `l` the encounter
order of the labels it is the spec's first-encountered mode, applied
with `l` a set iteration order it is what the code computes. -/
def firstByMaxCount (key : String → Nat) (l : List String) : Option String :=
  l.find? (fun a => l.all (fun c => decide (key c ≤ key a)))

/-- A possible iteration order of the Python set `set(ws)`: some
enumeration of the distinct elements of `ws`. -/
def ValidSetOrder (ws order : List String) : Prop :=
  order.Perm ws.dedup

/-- An hourly observation with the given hour, temperature and
condition, used as concrete test data. -/
def sampleHour (h : Nat) (t : ℚ) (c : String) : HourData :=
  { hourOfDay := h, temp_c := t, feelslike_c := t, humidity := 50, wind_kph := 10
    condition_text := c }

/-- The spec's morning scenario: hours 6 to 11, temperatures 10 to 20,
condition Clear five times and Cloudy once. -/
def morningHours : List HourData :=
  [sampleHour 6 10 "Clear", sampleHour 7 12 "Clear", sampleHour 8 14 "Clear",
   sampleHour 9 16 "Clear", sampleHour 10 18 "Clear", sampleHour 11 20 "Cloudy"]

/-- A date environment in which nothing fails: the fetch returns the
morning scenario payload and every insert succeeds. -/
def okEnv : DateEnv :=
  { checkRaises1 := false, checkRaises2 := false
    fetchResult := some { hasForecastShape := true, hours := morningHours }
    outcome := fun _ => InsertOutcome.ok
    setOrder := fun l => l.dedup }

/-- A date environment in which both existence queries raise, the fetch
succeeds, and every insert raises. -/
def allRaiseEnv : DateEnv :=
  { checkRaises1 := true, checkRaises2 := true
    fetchResult := some { hasForecastShape := true, hours := morningHours }
    outcome := fun _ => InsertOutcome.raised
    setOrder := fun l => l.dedup }

/-- A simple concrete row used by witnesses. -/
def witRec : WeatherRecord :=
  { date := 5, location := "L", period := "morning", temperature := 15, humidity := 50
    wind_speed := 10, weather_condition := "Clear", user_id := "u" }

/-- A period whose morning hours tie between conditions A (first
encountered) and B. -/
def tiePeriods : Periods :=
  { morning := [sampleHour 6 1 "A", sampleHour 7 1 "B"], afternoon := [], evening := [] }

/-- A set iteration order that happens to present the distinct labels
in reverse of first-encounter order. -/
def revOrder : List String → List String := fun l => l.dedup.reverse

/-- A flat summary used as concrete per-period data. -/
def flatSummary : PeriodSummary := ⟨1, 1, 1, 1, "X"⟩

/-- Insert outcomes where the morning insert raises and the rest succeed. -/
def raiseMorning : String → InsertOutcome :=
  fun p => if p == "morning" then InsertOutcome.raised else InsertOutcome.ok

/-- Insert outcomes where the morning insert returns an error result and
the rest succeed. -/
def errMorning : String → InsertOutcome :=
  fun p => if p == "morning" then InsertOutcome.errResult else InsertOutcome.ok

/-- A date environment whose fetch succeeds but whose inserts all raise. -/
def failingInsertEnv : DateEnv :=
  { checkRaises1 := false, checkRaises2 := false
    fetchResult := some { hasForecastShape := true, hours := morningHours }
    outcome := fun _ => InsertOutcome.raised
    setOrder := fun l => l.dedup }

end WeatherTrack

namespace WeatherTrack

/-- Python's `max` over an iteration order, with a count-like key, picks
the first element of the order whose key is greatest. -/
theorem foldl_best_eq_find (key : String → Nat) :
    ∀ (xs : List String) (b : String),
      List.find? (fun x => (b :: xs).all (fun c => decide (key c ≤ key x))) (b :: xs) =
        some (xs.foldl (fun x y => if key x < key y then y else x) b) := by
  intro xs
  induction xs with
  | nil =>
    intro b
    simp
  | cons a t ih =>
    intro b
    by_cases hab : key b < key a
    · have hstep : (a :: t).foldl (fun x y => if key x < key y then y else x) b
          = t.foldl (fun x y => if key x < key y then y else x) a := by
        rw [List.foldl_cons]
        congr 1
        simp [hab]
      rw [hstep]
      have hfun : (fun x => (b :: a :: t).all fun c => decide (key c ≤ key x))
          = (fun x => (a :: t).all fun c => decide (key c ≤ key x)) := by
        funext x
        rw [List.all_cons]
        cases h : (a :: t).all fun c => decide (key c ≤ key x) with
        | false => simp [h]
        | true =>
          have hax : key a ≤ key x := by
            have := (List.all_eq_true.mp h) a (by simp)
            simpa using this
          have hbx : key b ≤ key x := le_trans (le_of_lt hab) hax
          simp [h, hbx]
      rw [hfun]
      have hb_false : ¬ ((fun x => (a :: t).all fun c => decide (key c ≤ key x)) b = true) := by
        simp only [List.all_cons, Bool.and_eq_true, decide_eq_true_eq]
        intro hcon
        exact absurd hcon.1 (not_le.mpr hab)
      rw [List.find?_cons_of_neg (a :: t) hb_false]
      exact ih a
    · have hstep : (a :: t).foldl (fun x y => if key x < key y then y else x) b
          = t.foldl (fun x y => if key x < key y then y else x) b := by
        rw [List.foldl_cons]
        congr 1
        simp [hab]
      rw [hstep]
      have hba : key a ≤ key b := not_lt.mp hab
      have hfun : (fun x => (b :: a :: t).all fun c => decide (key c ≤ key x))
          = (fun x => (b :: t).all fun c => decide (key c ≤ key x)) := by
        funext x
        simp only [List.all_cons]
        by_cases hbx : key b ≤ key x
        · have hax : key a ≤ key x := le_trans hba hbx
          simp [hbx, hax]
        · simp [hbx]
      rw [hfun]
      by_cases hb : ((fun x => (b :: t).all fun c => decide (key c ≤ key x)) b = true)
      · have h1 := ih b
        rw [List.find?_cons_of_pos t hb] at h1
        rw [List.find?_cons_of_pos (a :: t) hb]
        exact h1
      · have ha : ¬ ((fun x => (b :: t).all fun c => decide (key c ≤ key x)) a = true) := by
          simp only [List.all_cons, Bool.and_eq_true, decide_eq_true_eq] at hb ⊢
          intro hcon
          apply hb
          refine ⟨le_refl _, ?_⟩
          rw [List.all_eq_true] at hcon ⊢
          intro c hc
          have := hcon.2 c hc
          simp only [decide_eq_true_eq] at this ⊢
          exact le_trans this hba
        have h1 := ih b
        rw [List.find?_cons_of_neg t hb] at h1
        rw [List.find?_cons_of_neg (a :: t) hb, List.find?_cons_of_neg t ha]
        exact h1

/-- On a non-empty iteration order the code's mode computation agrees
with taking the first element of the order whose count is maximal. -/
theorem firstByMaxCount_eq_pyMax (key : String → Nat) (x : String) (xs : List String) :
    firstByMaxCount key (x :: xs) = pyMax key (x :: xs) := by
  rw [firstByMaxCount, pyMax]
  exact foldl_best_eq_find key xs x

/-- The maximum-returning fold underlying `lastDate`. -/
theorem foldl_max_spec :
    ∀ (l : List Int) (m : Int),
      (List.foldl max m l = m ∨ List.foldl max m l ∈ l) ∧
        m ≤ List.foldl max m l ∧ ∀ x ∈ l, x ≤ List.foldl max m l := by
  intro l
  induction l with
  | nil =>
    intro m
    simp
  | cons a t ih =>
    intro m
    rw [List.foldl_cons]
    obtain ⟨hmem, hle, hall⟩ := ih (max m a)
    refine ⟨?_, le_trans (le_max_left m a) hle, ?_⟩
    · rcases hmem with h | h
      · rcases max_choice m a with hc | hc
        · exact Or.inl (h.trans hc)
        · refine Or.inr ?_
          rw [h, hc]
          exact List.mem_cons_self a t
      · exact Or.inr (List.mem_cons_of_mem a h)
    · intro x hx
      rcases List.mem_cons.mp hx with rfl | hx
      · exact le_trans (le_max_right m x) hle
      · exact hall x hx

/-- `lastDate` on a non-empty list is the fold of `max` over it. -/
theorem lastDate_cons (a : Int) (t : List Int) :
    lastDate (a :: t) = some (List.foldl max a t) := by
  rw [lastDate]
  suffices h : ∀ (t : List Int) (a : Int),
      List.foldl (fun acc dt =>
        match acc with
        | none => some dt
        | some m => some (max m dt)) (some a) t = some (List.foldl max a t) by
    simpa using h t a
  intro t
  induction t with
  | nil => intro a; rfl
  | cons b s ih => intro a; simpa using ih (max a b)

/-- `lastDate` returns a member that bounds every member. -/
theorem lastDate_eq_some (l : List Int) (D : Int) (h : lastDate l = some D) :
    D ∈ l ∧ ∀ x ∈ l, x ≤ D := by
  cases l with
  | nil => simp [lastDate] at h
  | cons a t =>
    rw [lastDate_cons] at h
    obtain ⟨hmem, hle, hall⟩ := foldl_max_spec t a
    have hD : D = List.foldl max a t := by
      injection h with h2
      exact h2.symm
    subst hD
    constructor
    · rcases hmem with h | h
      · rw [h]
        exact List.mem_cons_self a t
      · exact List.mem_cons_of_mem a h
    · intro x hx
      rcases List.mem_cons.mp hx with rfl | hx
      · exact hle
      · exact hall x hx

/-- `lastDate` returns `none` only on the empty list. -/
theorem lastDate_eq_none (l : List Int) (h : lastDate l = none) : l = [] := by
  cases l with
  | nil => rfl
  | cons a t => rw [lastDate_cons] at h; cases h

/-- An empty date range: nothing between `start` and an earlier end. -/
theorem dateRange_eq_nil {start y : Int} (h : y < start) : dateRange start y = [] := by
  have : (y + 1 - start).toNat = 0 := by omega
  simp [dateRange, this]

/-- A non-empty date range peels off its first day. -/
theorem dateRange_cons {start y : Int} (h : start ≤ y) :
    dateRange start y = start :: dateRange (start + 1) y := by
  have h1 : (y + 1 - start).toNat = (y + 1 - (start + 1)).toNat + 1 := by omega
  rw [dateRange, h1, List.range_succ_eq_map]
  rw [List.map_cons, List.map_map]
  congr 1
  · simp
  · rw [dateRange]
    congr 1
    funext i
    simp only [Function.comp_apply, Nat.succ_eq_add_one]
    push_cast
    ring

/-- Membership in a date range is exactly the interval condition. -/
theorem mem_dateRange {start y d : Int} :
    d ∈ dateRange start y ↔ start ≤ d ∧ d ≤ y := by
  simp only [dateRange, List.mem_map, List.mem_range]
  constructor
  · rintro ⟨i, hi, rfl⟩
    omega
  · rintro ⟨h1, h2⟩
    exact ⟨(d - start).toNat, by omega, by omega⟩

/-- A date range lists its days in strictly increasing order. -/
theorem dateRange_sorted (start y : Int) :
    List.Pairwise (· < ·) (dateRange start y) := by
  rw [dateRange, List.pairwise_map]
  refine (List.pairwise_lt_range _).imp ?_
  intro a b hab
  omega

end WeatherTrack

namespace WeatherTrack

theorem insertLoop_records_date (uid city country : String) (date : Int)
    (outcome : String → InsertOutcome) :
    ∀ pa, ∀ r ∈ (insertLoop uid city country date outcome pa).1, r.date = date := by
  intro pa
  induction pa with
  | nil =>
    intro r hr
    simp [insertLoop] at hr
  | cons pd rest ih =>
    obtain ⟨p, d⟩ := pd
    intro r hr
    cases h : outcome p with
    | raised => simp [insertLoop, h] at hr
    | errResult =>
      simp only [insertLoop, h] at hr
      exact ih r hr
    | ok =>
      simp only [insertLoop, h] at hr
      rcases List.mem_cons.mp hr with rfl | hr
      · rfl
      · exact ih r hr

theorem insertLoop_trace_shape (uid city country : String) (date : Int)
    (outcome : String → InsertOutcome) :
    ∀ pa, ∀ ev ∈ (insertLoop uid city country date outcome pa).2,
      ∃ w : WeatherRecord, ev = Event.insertAttempt w ∧ w.date = date := by
  intro pa
  induction pa with
  | nil =>
    intro ev hev
    simp [insertLoop] at hev
  | cons pd rest ih =>
    obtain ⟨p, d⟩ := pd
    intro ev hev
    cases h : outcome p with
    | raised =>
      simp only [insertLoop, h, List.mem_singleton] at hev
      exact ⟨mkRecord uid city country date p d, hev, rfl⟩
    | errResult =>
      simp only [insertLoop, h] at hev
      rcases List.mem_cons.mp hev with rfl | hev
      · exact ⟨mkRecord uid city country date p d, rfl, rfl⟩
      · exact ih ev hev
    | ok =>
      simp only [insertLoop, h] at hev
      rcases List.mem_cons.mp hev with rfl | hev
      · exact ⟨mkRecord uid city country date p d, rfl, rfl⟩
      · exact ih ev hev

theorem store_weather_data_spec (uid city country : String) (store : List WeatherRecord)
    (checkRaises : Bool) (outcome : String → InsertOutcome) (date : Int)
    (pa : List (String × PeriodSummary)) :
    (∃ extra, (store_weather_data uid city country store checkRaises outcome date pa).1
        = store ++ extra ∧ ∀ r ∈ extra, r.date = date) ∧
    ∀ ev ∈ (store_weather_data uid city country store checkRaises outcome date pa).2,
      ev.date = date := by
  by_cases hc : check_existing_data store uid date checkRaises
  · constructor
    · exact ⟨[], by simp [store_weather_data, hc], by simp⟩
    · intro ev hev
      simp only [store_weather_data, if_pos hc, List.mem_singleton] at hev
      subst hev
      rfl
  · constructor
    · refine ⟨(insertLoop uid city country date outcome pa).1, ?_, ?_⟩
      · simp [store_weather_data, hc]
      · exact insertLoop_records_date uid city country date outcome pa
    · intro ev hev
      simp only [store_weather_data, if_neg hc] at hev
      rcases List.mem_cons.mp hev with rfl | hev
      · rfl
      · obtain ⟨w, rfl, hw⟩ := insertLoop_trace_shape uid city country date outcome pa ev hev
        exact hw

theorem process_date_spec (uid city country : String) (env : DateEnv)
    (store : List WeatherRecord) (date : Int) :
    (∃ extra, (process_date uid city country env store date).store
        = store ++ extra ∧ ∀ r ∈ extra, r.date = date) ∧
    ∀ ev ∈ (process_date uid city country env store date).trace, ev.date = date := by
  by_cases hc : check_existing_data store uid date env.checkRaises1
  · constructor
    · exact ⟨[], by simp [process_date, hc], by simp⟩
    · intro ev hev
      simp only [process_date, if_pos hc, List.mem_singleton] at hev
      subst hev
      rfl
  · cases hf : env.fetchResult with
    | none =>
      constructor
      · exact ⟨[], by simp [process_date, hc, hf], by simp⟩
      · intro ev hev
        simp only [process_date, if_neg hc, hf, List.mem_cons, List.not_mem_nil,
          or_false] at hev
        rcases hev with rfl | rfl
        · rfl
        · rfl
    | some w =>
      cases ha : analyze_weather_periods (some w) with
      | none =>
        constructor
        · exact ⟨[], by simp [process_date, hc, hf, ha], by simp⟩
        · intro ev hev
          simp only [process_date, if_neg hc, hf, ha, List.mem_cons, List.not_mem_nil,
            or_false] at hev
          rcases hev with rfl | rfl
          · rfl
          · rfl
      | some periods =>
        have hsw := store_weather_data_spec uid city country store env.checkRaises2
          env.outcome date (calculate_period_averages env.setOrder periods)
        constructor
        · obtain ⟨extra, hst, hex⟩ := hsw.1
          refine ⟨extra, ?_, hex⟩
          simp only [process_date, if_neg hc, hf, ha]
          exact hst
        · intro ev hev
          simp only [process_date, if_neg hc, hf, ha, List.mem_cons] at hev
          rcases hev with rfl | rfl | hev
          · rfl
          · rfl
          · exact hsw.2 ev hev

theorem process_date_skip (uid city country : String) (env : DateEnv)
    (store : List WeatherRecord) (date : Int)
    (h : check_existing_data store uid date env.checkRaises1 = true) :
    process_date uid city country env store date
      = { ok := true, store := store, trace := [Event.existsCheck date] } := by
  simp [process_date, h]

theorem check_existing_of_mem {store : List WeatherRecord} {r : WeatherRecord}
    {uid : String} {d : Int} (hr : r ∈ store) (hd : r.date = d) (hu : r.user_id = uid) :
    check_existing_data store uid d false = true := by
  have hmem : r ∈ store.filter (fun x => x.date == d && x.user_id == uid) :=
    List.mem_filter.mpr ⟨hr, by simp [hd, hu]⟩
  simp only [check_existing_data, Bool.false_eq_true, if_false, decide_eq_true_eq,
    List.length_pos]
  exact List.ne_nil_of_mem hmem

theorem filter_date_append {store extra : List WeatherRecord} {c d : Int}
    (hx : ∀ r ∈ extra, r.date = c) (hne : c ≠ d) :
    (store ++ extra).filter (fun x => x.date == d) = store.filter (fun x => x.date == d) := by
  rw [List.filter_append]
  have h0 : extra.filter (fun x => x.date == d) = [] := by
    rw [List.filter_eq_nil_iff]
    intro a ha
    simp [hx a ha, hne]
  rw [h0, List.append_nil]

end WeatherTrack

namespace WeatherTrack

theorem mainLoopF_map_fst (uid city country : String) (env : Int → DateEnv) (y : Int) :
    ∀ (n : Nat) (current : Int) (store : List WeatherRecord),
      (y + 1 - current).toNat ≤ n →
      (mainLoopF uid city country env y n current store).results.map Prod.fst
        = dateRange current y := by
  intro n
  induction n with
  | zero =>
    intro current store hfuel
    rw [mainLoopF, dateRange_eq_nil (by omega)]
    rfl
  | succ n ih =>
    intro current store hfuel
    by_cases hcy : current ≤ y
    · simp only [mainLoopF, if_pos hcy, List.map_cons]
      rw [ih (current + 1) _ (by omega), dateRange_cons hcy]
    · simp only [mainLoopF, if_neg hcy]
      rw [dateRange_eq_nil (by omega)]
      rfl

theorem mainLoop_map_fst (uid city country : String) (env : Int → DateEnv)
    (y start : Int) (store : List WeatherRecord) :
    (mainLoop uid city country env y start store).results.map Prod.fst
      = dateRange start y :=
  mainLoopF_map_fst uid city country env y _ start store (le_refl _)

theorem mainLoopF_no_touch (uid city country : String) (env : Int → DateEnv) (y d : Int)
    (hc : (env d).checkRaises1 = false) :
    ∀ (n : Nat) (current : Int) (store : List WeatherRecord),
      (∃ r ∈ store, r.date = d ∧ r.user_id = uid) →
      Event.fetchCall d ∉ (mainLoopF uid city country env y n current store).trace ∧
      (∀ w : WeatherRecord, w.date = d →
        Event.insertAttempt w ∉ (mainLoopF uid city country env y n current store).trace) ∧
      (mainLoopF uid city country env y n current store).store.filter
          (fun x => x.date == d)
        = store.filter (fun x => x.date == d) ∧
      (current ≤ d → d ≤ y → (y + 1 - current).toNat ≤ n →
        (d, true) ∈ (mainLoopF uid city country env y n current store).results) := by
  intro n
  induction n with
  | zero =>
    intro current store hinv
    rw [mainLoopF]
    refine ⟨by simp, by simp, rfl, ?_⟩
    intro h1 h2 h3
    omega
  | succ n ih =>
    intro current store hinv
    by_cases hcy : current ≤ y
    · by_cases hcd : current = d
      · subst hcd
        obtain ⟨r, hr, hrd, hru⟩ := hinv
        have hchk : check_existing_data store uid current (env current).checkRaises1 = true := by
          rw [hc]
          exact check_existing_of_mem hr hrd hru
        simp only [mainLoopF, if_pos hcy, process_date_skip uid city country (env current)
          store current hchk]
        obtain ⟨htr1, htr2, hst, hres⟩ := ih (current + 1) store ⟨r, hr, hrd, hru⟩
        refine ⟨?_, ?_, hst, ?_⟩
        · intro hmem
          rcases List.mem_append.mp hmem with hmem | hmem
          · simp at hmem
          · exact htr1 hmem
        · intro w hw hmem
          rcases List.mem_append.mp hmem with hmem | hmem
          · simp at hmem
          · exact htr2 w hw hmem
        · intro _ _ _
          exact List.mem_cons_self _ _
      · obtain ⟨⟨extra, hst, hex⟩, hevd⟩ :=
          process_date_spec uid city country (env current) store current
        have hinv' : ∃ r ∈ (process_date uid city country (env current) store current).store,
            r.date = d ∧ r.user_id = uid := by
          obtain ⟨r, hr, hrd, hru⟩ := hinv
          exact ⟨r, by rw [hst]; exact List.mem_append_left _ hr, hrd, hru⟩
        obtain ⟨htr1, htr2, hstr, hres⟩ := ih (current + 1) _ hinv'
        simp only [mainLoopF, if_pos hcy]
        refine ⟨?_, ?_, ?_, ?_⟩
        · intro hmem
          rcases List.mem_append.mp hmem with hmem | hmem
          · have := hevd _ hmem
            simp only [Event.date] at this
            exact hcd this.symm
          · exact htr1 hmem
        · intro w hw hmem
          rcases List.mem_append.mp hmem with hmem | hmem
          · have := hevd _ hmem
            simp only [Event.date] at this
            rw [hw] at this
            exact hcd this.symm
          · exact htr2 w hw hmem
        · rw [hstr, hst, filter_date_append hex hcd]
        · intro h1 h2 h3
          refine List.mem_cons_of_mem _ (hres (by omega) h2 (by omega))
    · have hred : mainLoopF uid city country env y (n + 1) current store
          = { store := store, results := [], trace := [] } := by
        simp only [mainLoopF, if_neg hcy]
      rw [hred]
      refine ⟨by simp, by simp, rfl, ?_⟩
      intro h1 h2 h3
      omega

end WeatherTrack

namespace WeatherTrack

/-- A cursor read that returns a date returns the greatest date stored
for the user. -/
theorem get_last_some (store : List WeatherRecord) (uid : String) (D : Int)
    (h : get_last_stored_date store uid false = some D) :
    (∃ r ∈ store, r.user_id = uid ∧ r.date = D) ∧
      ∀ r ∈ store, r.user_id = uid → r.date ≤ D := by
  rw [get_last_stored_date] at h
  simp only [Bool.false_eq_true, if_false] at h
  obtain ⟨hmem, hall⟩ := lastDate_eq_some _ _ h
  constructor
  · obtain ⟨r, hr, hrd⟩ := List.mem_map.mp hmem
    have hf := List.mem_filter.mp hr
    exact ⟨r, hf.1, by simpa using hf.2, hrd⟩
  · intro r hr hu
    exact hall r.date (List.mem_map.mpr ⟨r, List.mem_filter.mpr ⟨hr, by simp [hu]⟩, rfl⟩)

/-- A cursor read that returns nothing means the user has no rows. -/
theorem get_last_none (store : List WeatherRecord) (uid : String)
    (h : get_last_stored_date store uid false = none) :
    ∀ r ∈ store, r.user_id ≠ uid := by
  rw [get_last_stored_date] at h
  simp only [Bool.false_eq_true, if_false] at h
  have hnil := lastDate_eq_none _ h
  have h2 : store.filter (fun r => r.user_id == uid) = [] := by
    exact List.map_eq_nil_iff.mp hnil
  intro r hr hu
  have hin : r ∈ store.filter (fun r => r.user_id == uid) :=
    List.mem_filter.mpr ⟨hr, by simp [hu]⟩
  rw [h2] at hin
  exact absurd hin (List.not_mem_nil r)

/-- C4: the run processes exactly the dates from the day after the last
stored date for the user (or yesterday when no prior record exists) up
to yesterday; when start exceeds yesterday the range is empty. -/
theorem run_range_determination (uid city country : String) (env : Int → DateEnv)
    (store : List WeatherRecord) (y : Int) :
    (∀ D : Int, get_last_stored_date store uid false = some D →
      (∃ r ∈ store, r.user_id = uid ∧ r.date = D) ∧
      (∀ r ∈ store, r.user_id = uid → r.date ≤ D) ∧
      (mainRun uid city country false env y store).results.map Prod.fst
        = dateRange (D + 1) y) ∧
    (get_last_stored_date store uid false = none →
      (∀ r ∈ store, r.user_id ≠ uid) ∧
      (mainRun uid city country false env y store).results.map Prod.fst
        = dateRange y y) ∧
    ∀ s : Int, y < s → dateRange s y = [] := by
  refine ⟨?_, ?_, ?_⟩
  · intro D hD
    obtain ⟨hex, hall⟩ := get_last_some store uid D hD
    refine ⟨hex, hall, ?_⟩
    simp only [mainRun, hD]
    exact mainLoop_map_fst uid city country env y (D + 1) store
  · intro hnone
    refine ⟨get_last_none store uid hnone, ?_⟩
    simp only [mainRun, hnone]
    exact mainLoop_map_fst uid city country env y y store
  · intro s hs
    exact dateRange_eq_nil hs

/-- C4 witness: with one row for the user at date 5 and yesterday 7, the
run processes exactly the dates 6 and 7. -/
theorem run_range_determination_witness :
    get_last_stored_date [witRec] "u" false = some 5 ∧
    (mainRun "u" "c" "co" false (fun _ => okEnv) 7 [witRec]).results.map Prod.fst
      = [6, 7] := by
  have h := (run_range_determination "u" "c" "co" (fun _ => okEnv) [witRec] 7).1 5 (by decide)
  refine ⟨by decide, ?_⟩
  rw [h.2.2]
  decide

/-- C5: the run attempts every date of the range exactly once, in
strictly ascending calendar order, and which dates are attempted does
not depend on the per-date outcomes (a failing date never stops the
loop or drops another date). -/
theorem run_attempts_all_dates_in_order (uid city country : String) (env : Int → DateEnv)
    (y start : Int) (store : List WeatherRecord) :
    (mainLoop uid city country env y start store).results.map Prod.fst
      = dateRange start y ∧
    List.Pairwise (· < ·)
      ((mainLoop uid city country env y start store).results.map Prod.fst) ∧
    ∀ (env' : Int → DateEnv) (store' : List WeatherRecord),
      (mainLoop uid city country env' y start store').results.map Prod.fst
        = (mainLoop uid city country env y start store).results.map Prod.fst := by
  refine ⟨mainLoop_map_fst uid city country env y start store, ?_, ?_⟩
  · rw [mainLoop_map_fst uid city country env y start store]
    exact dateRange_sorted start y
  · intro env' store'
    rw [mainLoop_map_fst uid city country env' y start store',
      mainLoop_map_fst uid city country env y start store]

/-- C10: when the cursor query raises, `get_last_stored_date` returns
`None` and the run behaves as if no prior records exist, processing the
single date yesterday. -/
theorem cursor_error_single_day_range (uid city country : String) (env : Int → DateEnv)
    (store : List WeatherRecord) (y : Int) :
    get_last_stored_date store uid true = none ∧
    (mainRun uid city country true env y store).results.map Prod.fst = dateRange y y ∧
    dateRange y y = [y] := by
  refine ⟨by simp [get_last_stored_date], ?_, ?_⟩
  · simp only [mainRun, get_last_stored_date, if_pos rfl]
    exact mainLoop_map_fst uid city country env y y store
  · rw [dateRange_cons (le_refl y), dateRange_eq_nil (by omega)]

/-- C1: if a record for (date, user) is already in the store and the
existence query for that date does not raise, a run over a range
containing the date performs no fetch and no insert for it, leaves the
store's rows for that date unchanged, and reports the date skipped with
success. -/
theorem backfill_skips_existing_date (uid city country : String) (env : Int → DateEnv)
    (y start d : Int) (store : List WeatherRecord) (r : WeatherRecord)
    (hr : r ∈ store) (hrd : r.date = d) (hru : r.user_id = uid)
    (hc : (env d).checkRaises1 = false) (h1 : start ≤ d) (h2 : d ≤ y) :
    Event.fetchCall d ∉ (mainLoop uid city country env y start store).trace ∧
    (∀ w : WeatherRecord, w.date = d →
      Event.insertAttempt w ∉ (mainLoop uid city country env y start store).trace) ∧
    (mainLoop uid city country env y start store).store.filter (fun x => x.date == d)
      = store.filter (fun x => x.date == d) ∧
    (d, true) ∈ (mainLoop uid city country env y start store).results := by
  obtain ⟨ha, hb, hc2, hd2⟩ :=
    mainLoopF_no_touch uid city country env y d hc ((y + 1 - start).toNat) start store
      ⟨r, hr, hrd, hru⟩
  exact ⟨ha, hb, hc2, hd2 h1 h2 (le_refl _)⟩

/-- C1 witness: a run over the single-day range 5..5 with the record for
date 5 present fetches nothing, inserts nothing, and reports (5, true). -/
theorem backfill_skips_existing_date_witness :
    Event.fetchCall 5 ∉ (mainLoop "u" "c" "co" (fun _ => okEnv) 5 5 [witRec]).trace ∧
    (5, true) ∈ (mainLoop "u" "c" "co" (fun _ => okEnv) 5 5 [witRec]).results := by
  have h := backfill_skips_existing_date "u" "c" "co" (fun _ => okEnv) 5 5 5 [witRec]
    witRec (by decide) (by decide) (by decide) (by decide) (by decide) (by decide)
  exact ⟨h.1, h.2.2.2⟩

end WeatherTrack

namespace WeatherTrack

/-- C3 counterexample: with tied counts, a valid set iteration order
makes the code return B although A is the label encountered first, so
the tie is not broken by first-encountered order. -/
theorem mode_tiebreak_cex :
    ValidSetOrder [ "A", "B" ] (revOrder [ "A", "B" ]) ∧
    firstByMaxCount (fun c => List.count c [ "A", "B" ]) [ "A", "B" ] = some "A" ∧
    ((calculate_period_averages revOrder tiePeriods).lookup "morning").map
      (fun s => s.weather_condition) = some "B" ∧
    ("B" : String) ≠ "A" := by
  refine ⟨?_, by decide, by decide, by decide⟩
  rw [ValidSetOrder]
  decide

/-- C3 amended: `calculate_period_averages` returns a condition label of
maximal frequency among the period's hours, and among tied labels it
returns the first one in the iteration order of the Python set of
labels (hash-dependent), not necessarily the first encountered. -/
theorem mode_tiebreak_amended (ws order : List String) (hv : ValidSetOrder ws order)
    (hne : ws ≠ []) :
    firstByMaxCount (fun c => ws.count c) order = some (most_common ws order) ∧
    most_common ws order ∈ ws ∧
    ∀ c ∈ ws, ws.count c ≤ ws.count (most_common ws order) := by
  have hmemiff : ∀ c : String, c ∈ order ↔ c ∈ ws := by
    intro c
    rw [hv.mem_iff, List.mem_dedup]
  cases order with
  | nil =>
    obtain ⟨a, ha⟩ := List.exists_mem_of_ne_nil ws hne
    exact absurd ((hmemiff a).mpr ha) (List.not_mem_nil a)
  | cons o os =>
    have hfind : firstByMaxCount (fun c => ws.count c) (o :: os)
        = some (most_common ws (o :: os)) := by
      rw [firstByMaxCount_eq_pyMax]
      simp [most_common, pyMax]
    refine ⟨hfind, ?_, ?_⟩
    · exact (hmemiff _).mp (List.mem_of_find?_eq_some hfind)
    · intro c hc
      have hpred := List.find?_some hfind
      rw [List.all_eq_true] at hpred
      have := hpred c ((hmemiff c).mpr hc)
      simpa using this

/-- C3 amended witness: on labels A, B, B with set order A, B the code
returns the maximal-count label B. -/
theorem mode_tiebreak_amended_witness :
    firstByMaxCount (fun c => List.count c [ "A", "B", "B" ]) [ "A", "B" ]
      = some (most_common [ "A", "B", "B" ] [ "A", "B" ]) ∧
    most_common [ "A", "B", "B" ] [ "A", "B" ] ∈ [ "A", "B", "B" ] ∧
    ∀ c ∈ [ "A", "B", "B" ],
      List.count c [ "A", "B", "B" ]
        ≤ List.count (most_common [ "A", "B", "B" ] [ "A", "B" ]) [ "A", "B", "B" ] := by
  have h := mode_tiebreak_amended [ "A", "B", "B" ] [ "A", "B" ] (by rw [ValidSetOrder]; decide)
    (by decide)
  exact h

end WeatherTrack

namespace WeatherTrack

/-- C6: on a payload with the forecast shape, every hour with hour-of-day
6 to 23 lands in exactly one of the three periods, hours 0 to 5 land in
none, and without the shape (or on a falsy payload) the analysis
returns `None`. -/
theorem hour_partition (w : Payload) (hshape : w.hasForecastShape = true) :
    ∃ per, analyze_weather_periods (some w) = some per ∧
      (∀ hd ∈ w.hours,
        (6 ≤ hd.hourOfDay ∧ hd.hourOfDay ≤ 11 →
          hd ∈ per.morning ∧ hd ∉ per.afternoon ∧ hd ∉ per.evening) ∧
        (12 ≤ hd.hourOfDay ∧ hd.hourOfDay ≤ 17 →
          hd ∉ per.morning ∧ hd ∈ per.afternoon ∧ hd ∉ per.evening) ∧
        (18 ≤ hd.hourOfDay ∧ hd.hourOfDay ≤ 23 →
          hd ∉ per.morning ∧ hd ∉ per.afternoon ∧ hd ∈ per.evening) ∧
        (hd.hourOfDay ≤ 5 →
          hd ∉ per.morning ∧ hd ∉ per.afternoon ∧ hd ∉ per.evening)) ∧
      analyze_weather_periods none = none ∧
      ∀ w' : Payload, w'.hasForecastShape = false →
        analyze_weather_periods (some w') = none := by
  have heq : analyze_weather_periods (some w) = some
      { morning := w.hours.filter (fun hd => decide (6 ≤ hd.hourOfDay ∧ hd.hourOfDay < 12))
        afternoon := w.hours.filter (fun hd => decide (12 ≤ hd.hourOfDay ∧ hd.hourOfDay < 18))
        evening := w.hours.filter (fun hd => decide (18 ≤ hd.hourOfDay ∧ hd.hourOfDay < 24)) } := by
    simp [analyze_weather_periods, hshape]
  refine ⟨_, heq, ?_, rfl, ?_⟩
  · intro hd hdmem
    simp only [List.mem_filter, hdmem, true_and, decide_eq_true_eq]
    exact ⟨fun h => ⟨by omega, by omega, by omega⟩,
      fun h => ⟨by omega, by omega, by omega⟩,
      fun h => ⟨by omega, by omega, by omega⟩,
      fun h => ⟨by omega, by omega, by omega⟩⟩
  · intro w' hw'
    simp [analyze_weather_periods, hw']

/-- C6 witness: the morning scenario payload has the forecast shape and
is analyzed into periods. -/
theorem hour_partition_witness :
    (∃ per, analyze_weather_periods
        (some { hasForecastShape := true, hours := morningHours }) = some per) ∧
    Payload.hasForecastShape { hasForecastShape := true, hours := morningHours } = true := by
  have h := hour_partition { hasForecastShape := true, hours := morningHours } rfl
  obtain ⟨per, heq, _, _, _⟩ := h
  exact ⟨⟨per, heq⟩, rfl⟩

/-- Looking up a period in the averages gives its summary exactly when
the period has hours. -/
theorem calculate_lookup (σ : List String → List String) (p : Periods) :
    ((calculate_period_averages σ p).lookup "morning"
        = if p.morning.isEmpty then none else some (summarize σ p.morning)) ∧
    ((calculate_period_averages σ p).lookup "afternoon"
        = if p.afternoon.isEmpty then none else some (summarize σ p.afternoon)) ∧
    ((calculate_period_averages σ p).lookup "evening"
        = if p.evening.isEmpty then none else some (summarize σ p.evening)) := by
  by_cases hm : p.morning = [] <;> by_cases ha : p.afternoon = [] <;>
    by_cases he : p.evening = [] <;>
    simp [calculate_period_averages, periodsList, List.isEmpty_iff, hm, ha, he, List.lookup]

/-- C7: a period with hours gets a summary whose numeric fields are the
arithmetic means (sum over count) of that period's hours, and a period
with no hours is absent from the averages. -/
theorem period_summary_means (σ : List String → List String) (p : Periods)
    (n : String) (hs : List HourData) (hmem : (n, hs) ∈ periodsList p) :
    (hs = [] → (calculate_period_averages σ p).lookup n = none) ∧
    (hs ≠ [] → ∃ s, (calculate_period_averages σ p).lookup n = some s ∧
      s.avg_temp * (hs.length : ℚ) = (hs.map (·.temp_c)).sum ∧
      s.avg_feels_like * (hs.length : ℚ) = (hs.map (·.feelslike_c)).sum ∧
      s.avg_humidity * (hs.length : ℚ) = (hs.map (·.humidity)).sum ∧
      s.avg_wind_speed * (hs.length : ℚ) = (hs.map (·.wind_kph)).sum) := by
  have hlen : hs ≠ [] → ((hs.length : ℚ)) ≠ 0 := by
    intro h
    have : hs.length ≠ 0 := fun hc => h (List.length_eq_zero.mp hc)
    exact_mod_cast Nat.cast_ne_zero.mpr this
  have hsum : hs ≠ [] → (summarize σ hs).avg_temp * (hs.length : ℚ) = (hs.map (·.temp_c)).sum ∧
      (summarize σ hs).avg_feels_like * (hs.length : ℚ) = (hs.map (·.feelslike_c)).sum ∧
      (summarize σ hs).avg_humidity * (hs.length : ℚ) = (hs.map (·.humidity)).sum ∧
      (summarize σ hs).avg_wind_speed * (hs.length : ℚ) = (hs.map (·.wind_kph)).sum := by
    intro h
    refine ⟨?_, ?_, ?_, ?_⟩ <;>
      exact div_mul_cancel₀ _ (hlen h)
  have hlk := calculate_lookup σ p
  simp only [periodsList, List.mem_cons, List.not_mem_nil, or_false,
    Prod.mk.injEq] at hmem
  rcases hmem with ⟨rfl, rfl⟩ | ⟨rfl, rfl⟩ | ⟨rfl, rfl⟩
  · constructor
    · intro h
      rw [hlk.1, if_pos (List.isEmpty_iff.mpr h)]
    · intro h
      refine ⟨summarize σ p.morning, ?_, hsum h⟩
      rw [hlk.1, if_neg (fun hc => h (List.isEmpty_iff.mp hc))]
  · constructor
    · intro h
      rw [hlk.2.1, if_pos (List.isEmpty_iff.mpr h)]
    · intro h
      refine ⟨summarize σ p.afternoon, ?_, hsum h⟩
      rw [hlk.2.1, if_neg (fun hc => h (List.isEmpty_iff.mp hc))]
  · constructor
    · intro h
      rw [hlk.2.2, if_pos (List.isEmpty_iff.mpr h)]
    · intro h
      refine ⟨summarize σ p.evening, ?_, hsum h⟩
      rw [hlk.2.2, if_neg (fun hc => h (List.isEmpty_iff.mp hc))]

/-- C7 witness: the spec's morning scenario yields a morning summary
with average temperature 15, and an hourless afternoon is absent. -/
theorem period_summary_means_witness :
    ((calculate_period_averages (fun l => l.dedup)
        { morning := morningHours, afternoon := [], evening := [] }).lookup "afternoon"
      = none) ∧
    ∃ s, (calculate_period_averages (fun l => l.dedup)
        { morning := morningHours, afternoon := [], evening := [] }).lookup "morning"
      = some s ∧ s.avg_temp = 15 := by
  have h1 := (period_summary_means (fun l => l.dedup)
    { morning := morningHours, afternoon := [], evening := [] } "afternoon" []
    (by simp [periodsList])).1 rfl
  have h2 := (period_summary_means (fun l => l.dedup)
    { morning := morningHours, afternoon := [], evening := [] } "morning" morningHours
    (by simp [periodsList])).2 (by simp [morningHours])
  obtain ⟨s, hs1, hs2, _⟩ := h2
  have hlen : ((morningHours.length : ℚ)) = 6 := by norm_num [morningHours]
  have hsum : (morningHours.map (·.temp_c)).sum = 90 := by
    norm_num [morningHours, sampleHour]
  rw [hlen, hsum] at hs2
  exact ⟨h1, s, hs1, by linarith⟩

end WeatherTrack

namespace WeatherTrack

/-- C2 counterexample: when the morning insert raises, the afternoon
insert of the same date is never attempted, so one period's failure can
block the remaining periods. -/
theorem per_period_insert_cex :
    raiseMorning "morning" = InsertOutcome.raised ∧
    ((store_weather_data "u" "c" "co" [] false raiseMorning 5
        [("morning", flatSummary), ("afternoon", flatSummary)]).2.countP
      (fun ev => match ev with
        | Event.insertAttempt w => w.period == "morning"
        | _ => false)) = 1 ∧
    ((store_weather_data "u" "c" "co" [] false raiseMorning 5
        [("morning", flatSummary), ("afternoon", flatSummary)]).2.countP
      (fun ev => match ev with
        | Event.insertAttempt w => w.period == "afternoon"
        | _ => false)) = 0 := by
  decide

/-- The insert loop with no raising insert attempts every period once,
in order. -/
theorem insertLoop_trace_no_raise (uid city country : String) (date : Int)
    (outcome : String → InsertOutcome) :
    ∀ pa, (∀ pd ∈ pa, outcome pd.1 ≠ InsertOutcome.raised) →
      (insertLoop uid city country date outcome pa).2
        = pa.map (fun pd => Event.insertAttempt (mkRecord uid city country date pd.1 pd.2)) := by
  intro pa
  induction pa with
  | nil => intro _; rfl
  | cons pd rest ih =>
    intro hnr
    obtain ⟨p, d⟩ := pd
    have hp := hnr (p, d) (List.mem_cons_self _ _)
    cases h : outcome p with
    | raised => exact absurd h hp
    | errResult =>
      simp only [insertLoop, h, List.map_cons]
      rw [ih (fun x hx => hnr x (List.mem_cons_of_mem _ hx))]
    | ok =>
      simp only [insertLoop, h, List.map_cons]
      rw [ih (fun x hx => hnr x (List.mem_cons_of_mem _ hx))]

/-- The insert loop stops at the first raising insert: periods before it
are attempted, it is attempted, and nothing after it is. -/
theorem insertLoop_trace_raise_at (uid city country : String) (date : Int)
    (outcome : String → InsertOutcome) :
    ∀ pre (p : String) (d : PeriodSummary) post,
      (∀ pd ∈ pre, outcome pd.1 ≠ InsertOutcome.raised) →
      outcome p = InsertOutcome.raised →
      (insertLoop uid city country date outcome (pre ++ (p, d) :: post)).2
        = pre.map (fun pd => Event.insertAttempt (mkRecord uid city country date pd.1 pd.2))
          ++ [Event.insertAttempt (mkRecord uid city country date p d)] := by
  intro pre
  induction pre with
  | nil =>
    intro p d post _ hp
    simp only [List.nil_append, List.map_nil]
    simp [insertLoop, hp]
  | cons pd rest ih =>
    intro p d post hnr hp
    obtain ⟨q, e⟩ := pd
    have hq := hnr (q, e) (List.mem_cons_self _ _)
    cases h : outcome q with
    | raised => exact absurd h hq
    | errResult =>
      simp only [List.cons_append, insertLoop, h, List.map_cons, List.cons_append,
        List.append_eq]
      rw [ih p d post (fun x hx => hnr x (List.mem_cons_of_mem _ hx)) hp]
    | ok =>
      simp only [List.cons_append, insertLoop, h, List.map_cons, List.cons_append,
        List.append_eq]
      rw [ih p d post (fun x hx => hnr x (List.mem_cons_of_mem _ hx)) hp]

/-- C2 amended: when no insert of the date raises an exception, every
period is attempted exactly once, in order, whether or not some inserts
fail through an error-carrying result (such failures are logged, never
retried, and block nothing); but an insert that raises an exception ends
the loop, and the periods after it are not attempted. -/
theorem per_period_insert_amended (uid city country : String)
    (store : List WeatherRecord) (checkRaises : Bool)
    (outcome : String → InsertOutcome) (date : Int)
    (pa : List (String × PeriodSummary))
    (hchk : check_existing_data store uid date checkRaises = false) :
    ((∀ pd ∈ pa, outcome pd.1 ≠ InsertOutcome.raised) →
      (store_weather_data uid city country store checkRaises outcome date pa).2
        = Event.existsCheck date
          :: pa.map (fun pd => Event.insertAttempt (mkRecord uid city country date pd.1 pd.2))) ∧
    ∀ pre (p : String) (d : PeriodSummary) post, pa = pre ++ (p, d) :: post →
      (∀ pd ∈ pre, outcome pd.1 ≠ InsertOutcome.raised) →
      outcome p = InsertOutcome.raised →
      (store_weather_data uid city country store checkRaises outcome date pa).2
        = Event.existsCheck date
          :: (pre.map (fun pd => Event.insertAttempt (mkRecord uid city country date pd.1 pd.2))
            ++ [Event.insertAttempt (mkRecord uid city country date p d)]) := by
  constructor
  · intro hnr
    simp only [store_weather_data, hchk, Bool.false_eq_true, if_false]
    rw [insertLoop_trace_no_raise uid city country date outcome pa hnr]
  · intro pre p d post hpa hnr hp
    simp only [store_weather_data, hchk, Bool.false_eq_true, if_false]
    rw [hpa, insertLoop_trace_raise_at uid city country date outcome pre p d post hnr hp]

/-- C2 amended witness: with a morning insert failing through an error
result, the afternoon insert of the same date is still attempted. -/
theorem per_period_insert_amended_witness :
    check_existing_data [] "u" 5 false = false ∧
    errMorning "morning" = InsertOutcome.errResult ∧
    ((store_weather_data "u" "c" "co" [] false errMorning 5
        [("morning", flatSummary), ("afternoon", flatSummary)]).2.countP
      (fun ev => match ev with
        | Event.insertAttempt w => w.period == "afternoon"
        | _ => false)) = 1 := by
  have h := (per_period_insert_amended "u" "c" "co" [] false errMorning 5
    [("morning", flatSummary), ("afternoon", flatSummary)] (by decide)).1 (by decide)
  refine ⟨by decide, by decide, ?_⟩
  rw [h]
  decide

end WeatherTrack

namespace WeatherTrack

/-- The insert loop on a non-empty list always attempts the first insert. -/
theorem insertLoop_head (uid city country : String) (date : Int)
    (outcome : String → InsertOutcome) (p : String) (d : PeriodSummary)
    (rest : List (String × PeriodSummary)) :
    ∃ evs, (insertLoop uid city country date outcome ((p, d) :: rest)).2
      = Event.insertAttempt (mkRecord uid city country date p d) :: evs := by
  cases h : outcome p with
  | raised => exact ⟨[], by simp [insertLoop, h]⟩
  | errResult =>
    exact ⟨(insertLoop uid city country date outcome rest).2, by simp [insertLoop, h]⟩
  | ok =>
    exact ⟨(insertLoop uid city country date outcome rest).2, by simp [insertLoop, h]⟩

/-- The averages are non-empty as soon as one period has hours. -/
theorem calculate_ne_nil (σ : List String → List String) (p : Periods)
    (h : p.morning ≠ [] ∨ p.afternoon ≠ [] ∨ p.evening ≠ []) :
    calculate_period_averages σ p ≠ [] := by
  intro hc
  rw [calculate_period_averages, List.filterMap_eq_nil_iff] at hc
  rcases h with h | h | h
  · have h2 := hc ("morning", p.morning) (by simp [periodsList])
    rw [if_neg (fun hemp => h (List.isEmpty_iff.mp hemp))] at h2
    cases h2
  · have h2 := hc ("afternoon", p.afternoon) (by simp [periodsList])
    rw [if_neg (fun hemp => h (List.isEmpty_iff.mp hemp))] at h2
    cases h2
  · have h2 := hc ("evening", p.evening) (by simp [periodsList])
    rw [if_neg (fun hemp => h (List.isEmpty_iff.mp hemp))] at h2
    cases h2

/-- C8: when the existence queries raise, the check reports the date as
absent and the run proceeds: it fetches the date, aggregates it,
attempts an insert, and reports success, whatever the store holds. -/
theorem existence_check_fails_open (uid city country : String) (env : DateEnv)
    (store : List WeatherRecord) (date : Int) (w : Payload)
    (h1 : env.checkRaises1 = true) (h2 : env.checkRaises2 = true)
    (hf : env.fetchResult = some w) (hsh : w.hasForecastShape = true)
    (hhour : ∃ hd ∈ w.hours, 6 ≤ hd.hourOfDay ∧ hd.hourOfDay < 24) :
    check_existing_data store uid date env.checkRaises1 = false ∧
    Event.fetchCall date ∈ (process_date uid city country env store date).trace ∧
    (∃ r : WeatherRecord,
      Event.insertAttempt r ∈ (process_date uid city country env store date).trace) ∧
    (process_date uid city country env store date).ok = true := by
  have hch1 : check_existing_data store uid date env.checkRaises1 = false := by
    rw [h1, check_existing_data]
    simp
  have hch2 : check_existing_data store uid date env.checkRaises2 = false := by
    rw [h2, check_existing_data]
    simp
  have heq : analyze_weather_periods (some w) = some
      { morning := w.hours.filter (fun hd => decide (6 ≤ hd.hourOfDay ∧ hd.hourOfDay < 12))
        afternoon := w.hours.filter (fun hd => decide (12 ≤ hd.hourOfDay ∧ hd.hourOfDay < 18))
        evening := w.hours.filter (fun hd => decide (18 ≤ hd.hourOfDay ∧ hd.hourOfDay < 24)) } := by
    simp [analyze_weather_periods, hsh]
  obtain ⟨hd, hdmem, hd6, hd24⟩ := hhour
  have hne : calculate_period_averages env.setOrder
      { morning := w.hours.filter (fun hd => decide (6 ≤ hd.hourOfDay ∧ hd.hourOfDay < 12))
        afternoon := w.hours.filter (fun hd => decide (12 ≤ hd.hourOfDay ∧ hd.hourOfDay < 18))
        evening := w.hours.filter (fun hd => decide (18 ≤ hd.hourOfDay ∧ hd.hourOfDay < 24)) }
      ≠ [] := by
    apply calculate_ne_nil
    by_cases hm : hd.hourOfDay < 12
    · exact Or.inl (List.ne_nil_of_mem (List.mem_filter.mpr ⟨hdmem, by
        simp only [decide_eq_true_eq]
        omega⟩))
    · by_cases haft : hd.hourOfDay < 18
      · exact Or.inr (Or.inl (List.ne_nil_of_mem (List.mem_filter.mpr ⟨hdmem, by
          simp only [decide_eq_true_eq]
          omega⟩)))
      · exact Or.inr (Or.inr (List.ne_nil_of_mem (List.mem_filter.mpr ⟨hdmem, by
          simp only [decide_eq_true_eq]
          omega⟩)))
  simp only [process_date, hch1, Bool.false_eq_true, if_false, hf, heq]
  simp only [store_weather_data, hch2, Bool.false_eq_true, if_false]
  cases hpa : calculate_period_averages env.setOrder
      { morning := w.hours.filter (fun hd => decide (6 ≤ hd.hourOfDay ∧ hd.hourOfDay < 12))
        afternoon := w.hours.filter (fun hd => decide (12 ≤ hd.hourOfDay ∧ hd.hourOfDay < 18))
        evening := w.hours.filter (fun hd => decide (18 ≤ hd.hourOfDay ∧ hd.hourOfDay < 24)) } with
  | nil => exact absurd hpa hne
  | cons pd rest =>
    obtain ⟨q, e⟩ := pd
    obtain ⟨evs, hevs⟩ := insertLoop_head uid city country date env.outcome q e rest
    rw [hevs]
    refine ⟨trivial, ?_, ?_, trivial⟩
    · simp
    · exact ⟨mkRecord uid city country date q e, by simp⟩

/-- C8 witness: with both existence queries raising over a store that
already has the date's row, the run still fetches and attempts an
insert for it. -/
theorem existence_check_fails_open_witness :
    check_existing_data [witRec] "u" 5 allRaiseEnv.checkRaises1 = false ∧
    Event.fetchCall 5 ∈ (process_date "u" "c" "co" allRaiseEnv [witRec] 5).trace ∧
    (∃ r : WeatherRecord,
      Event.insertAttempt r ∈ (process_date "u" "c" "co" allRaiseEnv [witRec] 5).trace) ∧
    (process_date "u" "c" "co" allRaiseEnv [witRec] 5).ok = true := by
  exact existence_check_fails_open "u" "c" "co" allRaiseEnv [witRec] 5
    { hasForecastShape := true, hours := morningHours } rfl rfl rfl rfl
    ⟨sampleHour 6 10 "Clear", by decide, by decide, by decide⟩

/-- C9: once the first existence check is negative and the fetch returns
a shaped payload, `process_date` returns `True` whatever each period
insert does: the per-date result never reflects persistence outcomes. -/
theorem success_ignores_persistence (uid city country : String) (env : DateEnv)
    (store : List WeatherRecord) (date : Int) (w : Payload)
    (hchk : check_existing_data store uid date env.checkRaises1 = false)
    (hf : env.fetchResult = some w) (hsh : w.hasForecastShape = true) :
    (process_date uid city country env store date).ok = true ∧
    ∀ out' : String → InsertOutcome,
      (process_date uid city country
        { env with outcome := out' } store date).ok = true := by
  have heq : analyze_weather_periods (some w) = some
      { morning := w.hours.filter (fun hd => decide (6 ≤ hd.hourOfDay ∧ hd.hourOfDay < 12))
        afternoon := w.hours.filter (fun hd => decide (12 ≤ hd.hourOfDay ∧ hd.hourOfDay < 18))
        evening := w.hours.filter (fun hd => decide (18 ≤ hd.hourOfDay ∧ hd.hourOfDay < 24)) } := by
    simp [analyze_weather_periods, hsh]
  constructor
  · simp only [process_date, hchk, Bool.false_eq_true, if_false, hf, heq]
  · intro out'
    simp only [process_date, hchk, Bool.false_eq_true, if_false, hf, heq]

/-- C9 witness: with every insert raising, the date is still reported
processed with success. -/
theorem success_ignores_persistence_witness :
    failingInsertEnv.outcome "morning" = InsertOutcome.raised ∧
    (process_date "u" "c" "co" failingInsertEnv [] 5).ok = true := by
  have h := success_ignores_persistence "u" "c" "co" failingInsertEnv [] 5
    { hasForecastShape := true, hours := morningHours } (by decide) rfl rfl
  exact ⟨by decide, h.1⟩

end WeatherTrack
